import Mathlib

/-!
Verification of the TodoListTS task-list application (src/app.ts).

The embedding models:
* `Task` — the task record (id, text, completed);
* `AppState` — the global mutable state: the `tasks` array, the `nextId`
  counter, the localStorage slot under key "tasks", and the text input value;
* `Effect` — observable side effects of an operation: a blocking alert,
  a localStorage write, and a re-render of the visual list;
* JSON serialization (`stringifyTasks`, mirroring `JSON.stringify` on an
  array of task objects) and parsing (`parseTasksStr`, mirroring
  `JSON.parse` on the grammar that `JSON.stringify` emits);
* the operations `addTask`, `toggleTask`, `deleteTask`, `saveTasks`,
  `loadTasks` translated from the source.
-/

namespace Todo

/-- A task record: `interface Task { id: number; text: string; completed: boolean }`. -/
structure Task where
  id : Int
  text : String
  completed : Bool
deriving DecidableEq, Repr

/-- Observable side effects of an operation: `alert(msg)`, a
`localStorage.setItem('tasks', v)` write, and a `renderTasks()` call
showing the given sequence. -/
inductive Effect where
  | alertE : String → Effect
  | saveE : String → Effect
  | renderE : List Task → Effect
deriving DecidableEq, Repr

/-- The global mutable state of the script: the `tasks` array, the `nextId`
counter, the persistence slot under key "tasks" (`none` when absent), and
the current value of the text input element. -/
structure AppState where
  tasks : List Task
  nextId : Int
  slot : Option String
  input : String
deriving DecidableEq, Repr

/-- Characters removed by JavaScript `String.prototype.trim` (ECMAScript
WhiteSpace and LineTerminator). -/
def isJsWhitespace (c : Char) : Bool :=
  c.toNat = 0x09 || c.toNat = 0x0A || c.toNat = 0x0B || c.toNat = 0x0C ||
  c.toNat = 0x0D || c.toNat = 0x20 || c.toNat = 0xA0 || c.toNat = 0x1680 ||
  (0x2000 ≤ c.toNat && c.toNat ≤ 0x200A) ||
  c.toNat = 0x2028 || c.toNat = 0x2029 || c.toNat = 0x202F ||
  c.toNat = 0x205F || c.toNat = 0x3000 || c.toNat = 0xFEFF

/-- JavaScript `s.trim()`: drop whitespace from both ends. -/
def jsTrim (s : String) : String :=
  ⟨((s.data.dropWhile isJsWhitespace).reverse.dropWhile isJsWhitespace).reverse⟩

/-- Decimal digits of a natural number, most significant first, as emitted
by `JSON.stringify` for a non-negative integer-valued number. -/
def natChars (n : Nat) : List Char :=
  if h : n < 10 then [Char.ofNat (48 + n)]
  else natChars (n / 10) ++ [Char.ofNat (48 + n % 10)]
termination_by n
decreasing_by
  exact Nat.div_lt_self (by omega) (by omega)

/-- Decimal notation of an integer as emitted by `JSON.stringify`. -/
def intChars (i : Int) : List Char :=
  if i < 0 then '-' :: natChars i.natAbs else natChars i.natAbs

/-- Lowercase hexadecimal digit, as produced by the UnicodeEscape path of
`JSON.stringify`'s string quoting. -/
def hexChar (n : Nat) : Char :=
  if n < 10 then Char.ofNat (48 + n) else Char.ofNat (87 + n)

/-- Escape of one character inside a JSON string literal, following the
QuoteJSONString algorithm used by `JSON.stringify`: quote and backslash
get two-character escapes, the five named control characters get their
short escapes, any other control character below U+0020 gets a
`\u00XX` escape, and every other character stands for itself. -/
def escChar (c : Char) : List Char :=
  if c = '"' then ['\\', '"']
  else if c = '\\' then ['\\', '\\']
  else if c.toNat = 8 then ['\\', 'b']
  else if c.toNat = 9 then ['\\', 't']
  else if c.toNat = 10 then ['\\', 'n']
  else if c.toNat = 12 then ['\\', 'f']
  else if c.toNat = 13 then ['\\', 'r']
  else if c.toNat < 32 then
    ['\\', 'u', '0', '0', hexChar (c.toNat / 16), hexChar (c.toNat % 16)]
  else [c]

/-- Escape of a whole string body (without the surrounding quotes). -/
def escString (s : List Char) : List Char := s.flatMap escChar

/-- `JSON.stringify` of a boolean. -/
def boolChars (b : Bool) : List Char :=
  if b then ['t', 'r', 'u', 'e'] else ['f', 'a', 'l', 's', 'e']

/-- `JSON.stringify` of one task object; property order is the insertion
order of the `Task` interface: id, text, completed. -/
def encodeTask (t : Task) : List Char :=
  "\x7b\"id\":".data ++ intChars t.id ++ ",\"text\":\"".data ++
    escString t.text.data ++ '"' :: ",\"completed\":".data ++
    boolChars t.completed ++ ['\x7d']

/-- Comma-separated encodings of the array elements. -/
def innerEnc : List Task → List Char
  | [] => []
  | [t] => encodeTask t
  | t :: ts => encodeTask t ++ ',' :: innerEnc ts

/-- `JSON.stringify` of the task array, as a character list. -/
def encodeTasks (ts : List Task) : List Char :=
  '[' :: innerEnc ts ++ [']']

/-- `JSON.stringify(tasks)`: the exact text written to the persistence slot. -/
def stringifyTasks (ts : List Task) : String :=
  ⟨encodeTasks ts⟩

/-- `saveTasks()`: writes `JSON.stringify(tasks)` to the slot under key
"tasks", returning the updated state and the storage-write effect. -/
def saveTasks (st : AppState) : AppState × Effect :=
  ({ st with slot := some (stringifyTasks st.tasks) },
   Effect.saveE (stringifyTasks st.tasks))

/-- `renderTasks()`: clears and rebuilds the visual list from the current
sequence; modelled as the render effect carrying that sequence. -/
def renderTasks (st : AppState) : Effect :=
  Effect.renderE st.tasks

/-- `addTask()`: trims the input; on empty text alerts and returns with no
state change; otherwise appends `{id: nextId++, text, completed: false}`,
clears the input, saves, and re-renders. -/
def addTask (st : AppState) : AppState × List Effect :=
  let text := jsTrim st.input
  if text = "" then
    (st, [Effect.alertE "Por favor, digite uma tarefa!"])
  else
    let newTask : Task := { id := st.nextId, text := text, completed := false }
    let st1 : AppState :=
      { st with tasks := st.tasks ++ [newTask], nextId := st.nextId + 1,
                input := "" }
    let saved := saveTasks st1
    (saved.1, [saved.2, renderTasks saved.1])

/-- Flip the `completed` flag of the first task whose id matches, the
mutation performed through the element returned by `tasks.find`. -/
def toggleFirst : List Task → Int → List Task
  | [], _ => []
  | t :: ts, id =>
    if t.id = id then { t with completed := !t.completed } :: ts
    else t :: toggleFirst ts id

/-- `toggleTask(id)`: finds the task by id; if found, flips its flag,
saves, and re-renders; otherwise does nothing. -/
def toggleTask (id : Int) (st : AppState) : AppState × List Effect :=
  match st.tasks.find? (fun t => t.id == id) with
  | some _ =>
    let st1 : AppState := { st with tasks := toggleFirst st.tasks id }
    let saved := saveTasks st1
    (saved.1, [saved.2, renderTasks saved.1])
  | none => (st, [])

/-- `deleteTask(id)`: filters out every task with that id, saves, and
re-renders. -/
def deleteTask (id : Int) (st : AppState) : AppState × List Effect :=
  let st1 : AppState := { st with tasks := st.tasks.filter (fun t => t.id != id) }
  let saved := saveTasks st1
  (saved.1, [saved.2, renderTasks saved.1])

/-- Value of a hexadecimal digit character, or `none`. -/
def hexVal (c : Char) : Option Nat :=
  if '0' ≤ c ∧ c ≤ '9' then some (c.toNat - 48)
  else if 'a' ≤ c ∧ c ≤ 'f' then some (c.toNat - 87)
  else if 'A' ≤ c ∧ c ≤ 'F' then some (c.toNat - 55)
  else none

/-- Consume a maximal run of decimal digits, accumulating their value. -/
def readDigits : List Char → Nat → Nat × List Char
  | [], acc => (acc, [])
  | c :: rest, acc =>
    if c.isDigit then readDigits rest (acc * 10 + (c.toNat - 48))
    else (acc, c :: rest)

/-- Parse a non-negative decimal number (at least one digit required). -/
def parseNatNum (l : List Char) : Option (Nat × List Char) :=
  match l with
  | [] => none
  | c :: _ => if c.isDigit then some (readDigits l 0) else none

/-- Parse a JSON integer: optional minus sign then digits. -/
def parseIntNum (l : List Char) : Option (Int × List Char) :=
  match l with
  | [] => none
  | c :: rest =>
    if c = '-' then
      match parseNatNum rest with
      | some (n, r) => some (-(n : Int), r)
      | none => none
    else
      match parseNatNum l with
      | some (n, r) => some ((n : Int), r)
      | none => none

/-- Parse the body of a JSON string literal up to and including the closing
quote, undoing the escapes of `escChar`; returns the decoded characters and
the remaining input. -/
def parseStrBody : List Char → Option (List Char × List Char)
  | [] => none
  | c :: rest =>
    if c = '"' then some ([], rest)
    else if c = '\\' then
      match rest with
      | [] => none
      | e :: r =>
        if e = '"' then (parseStrBody r).map (fun p => ('"' :: p.1, p.2))
        else if e = '\\' then (parseStrBody r).map (fun p => ('\\' :: p.1, p.2))
        else if e = 'b' then (parseStrBody r).map (fun p => (Char.ofNat 8 :: p.1, p.2))
        else if e = 't' then (parseStrBody r).map (fun p => (Char.ofNat 9 :: p.1, p.2))
        else if e = 'n' then (parseStrBody r).map (fun p => (Char.ofNat 10 :: p.1, p.2))
        else if e = 'f' then (parseStrBody r).map (fun p => (Char.ofNat 12 :: p.1, p.2))
        else if e = 'r' then (parseStrBody r).map (fun p => (Char.ofNat 13 :: p.1, p.2))
        else if e = 'u' then
          match r with
          | h1 :: h2 :: h3 :: h4 :: r2 =>
            match hexVal h1, hexVal h2, hexVal h3, hexVal h4 with
            | some a, some b, some c2, some d =>
              let v := ((a * 16 + b) * 16 + c2) * 16 + d
              if v < 55296 then
                (parseStrBody r2).map (fun p => (Char.ofNat v :: p.1, p.2))
              else none
            | _, _, _, _ => none
          | _ => none
        else none
    else (parseStrBody rest).map (fun p => (c :: p.1, p.2))

/-- Consume an expected literal prefix, returning the remaining input. -/
def dropLit : List Char → List Char → Option (List Char)
  | [], l => some l
  | _ :: _, [] => none
  | c :: cs, x :: xs => if x = c then dropLit cs xs else none

/-- Parse a JSON boolean literal. -/
def parseBool (l : List Char) : Option (Bool × List Char) :=
  match dropLit "true".data l with
  | some r => some (true, r)
  | none =>
    match dropLit "false".data l with
    | some r => some (false, r)
    | none => none

/-- Parse one task object of the exact shape `JSON.stringify` emits. -/
def parseTask (l : List Char) : Option (Task × List Char) :=
  (dropLit "\x7b\"id\":".data l).bind fun l1 =>
  (parseIntNum l1).bind fun p =>
  (dropLit ",\"text\":\"".data p.2).bind fun l3 =>
  (parseStrBody l3).bind fun q =>
  (dropLit ",\"completed\":".data q.2).bind fun l5 =>
  (parseBool l5).bind fun r =>
  match r.2 with
  | '\x7d' :: l7 => some ({ id := p.1, text := ⟨q.1⟩, completed := r.1 }, l7)
  | _ => none

/-- Parse a comma-separated non-empty run of task objects followed by the
closing bracket; `fuel` bounds the number of elements. -/
def parseTasksAux : Nat → List Char → Option (List Task × List Char)
  | 0, _ => none
  | fuel + 1, l =>
    match parseTask l with
    | none => none
    | some (t, rest) =>
      match rest with
      | ',' :: rest2 =>
        match parseTasksAux fuel rest2 with
        | some (ts, r) => some (t :: ts, r)
        | none => none
      | ']' :: rest2 => some ([t], rest2)
      | _ => none

/-- Parse a whole serialized task array, requiring the input be consumed
exactly; `none` models a `JSON.parse` exception. -/
def parseTasksTop (l : List Char) : Option (List Task) :=
  match l with
  | '[' :: rest =>
    match rest with
    | ']' :: rest2 => if rest2 = [] then some [] else none
    | _ =>
      match parseTasksAux (rest.length + 1) rest with
      | some (ts, rest2) => if rest2 = [] then some ts else none
      | none => none
  | _ => none

/-- `JSON.parse` applied to a persisted value, at the task-array schema. -/
def parseTasksStr (s : String) : Option (List Task) :=
  parseTasksTop s.data

/-- `Math.max(...tasks.map(t => t.id))` on a non-empty list of ids. -/
def maxIdInt : List Int → Int
  | [] => 0
  | x :: xs => xs.foldl max x

/-- `loadTasks()`: reads the slot; when a (truthy, i.e. non-empty) value is
present, parses it into `tasks` and, when the parsed array is non-empty,
recomputes `nextId` as the maximal id plus one. `none` models the uncaught
`JSON.parse` exception on malformed data. -/
def loadTasks (st : AppState) : Option AppState :=
  match st.slot with
  | none => some st
  | some saved =>
    if saved.data = [] then some st
    else
      match parseTasksStr saved with
      | none => none
      | some ts =>
        some { st with tasks := ts,
                       nextId := if ts.length > 0 then maxIdInt (ts.map Task.id) + 1
                                 else st.nextId }

/-- Is this effect a persistence write? -/
def isSaveE : Effect → Bool
  | Effect.saveE _ => true
  | _ => false

/-- Is this effect a re-render? -/
def isRenderE : Effect → Bool
  | Effect.renderE _ => true
  | _ => false

/-- Validity of a persisted sequence, per the data model: every id is a
positive integer and ids are unique. -/
def ValidSeq (S : List Task) : Prop :=
  (S.map Task.id).Nodup ∧ ∀ t ∈ S, 1 ≤ t.id

/-- The id invariant of the Item Store: ids are unique, every id is
positive, every id is strictly below `nextId`, and `nextId` is at least 1. -/
def StoreInv (st : AppState) : Prop :=
  (st.tasks.map Task.id).Nodup ∧ (∀ t ∈ st.tasks, 1 ≤ t.id ∧ t.id < st.nextId) ∧
    1 ≤ st.nextId

/-- States reachable by hydrating from a valid persisted sequence and then
running any interleaving of user typing and the three mutation operations. -/
inductive Reachable : AppState → Prop where
  | boot (S : List Task) (input : String) (st' : AppState) :
      ValidSeq S →
      loadTasks { tasks := [], nextId := 1, slot := some (stringifyTasks S), input := input } = some st' →
      Reachable st'
  | typed (st : AppState) (text : String) :
      Reachable st → Reachable { st with input := text }
  | added (st : AppState) : Reachable st → Reachable (addTask st).1
  | toggled (st : AppState) (id : Int) :
      Reachable st → Reachable (toggleTask id st).1
  | deleted (st : AppState) (id : Int) :
      Reachable st → Reachable (deleteTask id st).1

/-! ### Round-trip of the number notation -/

theorem digitFacts : ∀ d : Nat, d < 10 →
    (Char.ofNat (48 + d)).isDigit = true ∧ (Char.ofNat (48 + d)).toNat = 48 + d := by
  decide

theorem isDigit_ne_minus (c : Char) (h : c.isDigit = true) : c ≠ '-' := by
  intro he
  subst he
  exact absurd h (by decide)

theorem natChars_all_digit (n : Nat) : ∀ c ∈ natChars n, c.isDigit = true := by
  induction n using Nat.strong_induction_on with
  | _ n ih =>
    rw [natChars]
    split
    · intro c hc
      simp only [List.mem_singleton] at hc
      subst hc
      exact (digitFacts n (by assumption)).1
    · intro c hc
      rcases List.mem_append.1 hc with h1 | h2
      · exact ih (n / 10) (Nat.div_lt_self (by omega) (by omega)) c h1
      · simp only [List.mem_singleton] at h2
        subst h2
        exact (digitFacts (n % 10) (Nat.mod_lt _ (by omega))).1

theorem natChars_ne_nil (n : Nat) : natChars n ≠ [] := by
  rw [natChars]
  split <;> simp

theorem natChars_head (n : Nat) :
    ∃ c r, natChars n = c :: r ∧ c.isDigit = true := by
  cases h : natChars n with
  | nil => exact absurd h (natChars_ne_nil n)
  | cons c r =>
    refine ⟨c, r, rfl, ?_⟩
    exact natChars_all_digit n c (by rw [h]; exact List.mem_cons_self c r)

theorem readDigits_natChars (n : Nat) : ∀ acc rest,
    readDigits (natChars n ++ rest) acc =
      readDigits rest (acc * 10 ^ (natChars n).length + n) := by
  induction n using Nat.strong_induction_on with
  | _ n ih =>
    intro acc rest
    rw [natChars]
    split
    · have hd := digitFacts n (by assumption)
      simp only [List.singleton_append, List.length_singleton, readDigits, hd.1,
        if_true, hd.2, pow_one]
      have he : acc * 10 + (48 + n - 48) = acc * 10 + n := by omega
      rw [he]
      simp
    · have hlt : n / 10 < n := Nat.div_lt_self (by omega) (by omega)
      have hd := digitFacts (n % 10) (Nat.mod_lt _ (by omega))
      rw [List.append_assoc, ih (n / 10) hlt]
      simp only [List.singleton_append, readDigits, hd.1, if_true, hd.2,
        List.length_append, List.length_singleton]
      have hq : 48 + n % 10 - 48 = n % 10 := by omega
      rw [hq]
      congr 1
      have hmod : 10 * (n / 10) + n % 10 = n := Nat.div_add_mod n 10
      have : (acc * 10 ^ (natChars (n / 10)).length + n / 10) * 10 + n % 10 =
          acc * (10 ^ (natChars (n / 10)).length * 10) + (10 * (n / 10) + n % 10) := by
        ring
      rw [this, hmod, pow_succ]

theorem readDigits_stop (c : Char) (r : List Char) (acc : Nat)
    (h : c.isDigit = false) : readDigits (c :: r) acc = (acc, c :: r) := by
  simp [readDigits, h]

theorem parseNatNum_natChars (n : Nat) (c : Char) (rest : List Char)
    (h : c.isDigit = false) :
    parseNatNum (natChars n ++ c :: rest) = some (n, c :: rest) := by
  obtain ⟨d, r, hd, hdig⟩ := natChars_head n
  rw [hd, List.cons_append, parseNatNum]
  simp only [hdig, if_true, ← List.cons_append, ← hd]
  rw [readDigits_natChars n 0 (c :: rest), readDigits_stop c rest _ h]
  simp

theorem parseIntNum_intChars (i : Int) (c : Char) (rest : List Char)
    (h : c.isDigit = false) :
    parseIntNum (intChars i ++ c :: rest) = some (i, c :: rest) := by
  rw [intChars]
  split
  · rw [List.cons_append, parseIntNum]
    simp only [if_pos rfl]
    rw [parseNatNum_natChars i.natAbs c rest h]
    simp only [if_true]
    have : -(i.natAbs : Int) = i := by omega
    exact congrArg (fun z : Int => some (z, c :: rest)) this
  · obtain ⟨d, r, hd, hdig⟩ := natChars_head i.natAbs
    rw [hd, List.cons_append, parseIntNum]
    simp only [isDigit_ne_minus d hdig, if_false, ← List.cons_append, ← hd]
    rw [parseNatNum_natChars i.natAbs c rest h]
    have : ((i.natAbs : Nat) : Int) = i := by omega
    simp [this]

/-! ### Round-trip of the string quoting -/

theorem hexVal_hexChar : ∀ n : Nat, n < 16 → hexVal (hexChar n) = some n := by
  decide

theorem psb_quote (l : List Char) : parseStrBody ('"' :: l) = some ([], l) := by
  rw [parseStrBody.eq_def]
  simp

theorem psb_other (c : Char) (l : List Char) (h1 : ¬c = '"') (h2 : ¬c = '\\') :
    parseStrBody (c :: l) = (parseStrBody l).map (fun p => (c :: p.1, p.2)) := by
  rw [parseStrBody.eq_def]
  simp [h1, h2]

theorem psb_esc_quote (l : List Char) : parseStrBody ('\\' :: '"' :: l) =
    (parseStrBody l).map (fun p => ('"' :: p.1, p.2)) := by
  rw [parseStrBody.eq_def]
  simp

theorem psb_esc_back (l : List Char) : parseStrBody ('\\' :: '\\' :: l) =
    (parseStrBody l).map (fun p => ('\\' :: p.1, p.2)) := by
  rw [parseStrBody.eq_def]
  simp

theorem psb_esc_b (l : List Char) : parseStrBody ('\\' :: 'b' :: l) =
    (parseStrBody l).map (fun p => (Char.ofNat 8 :: p.1, p.2)) := by
  rw [parseStrBody.eq_def]
  simp

theorem psb_esc_t (l : List Char) : parseStrBody ('\\' :: 't' :: l) =
    (parseStrBody l).map (fun p => (Char.ofNat 9 :: p.1, p.2)) := by
  rw [parseStrBody.eq_def]
  simp

theorem psb_esc_n (l : List Char) : parseStrBody ('\\' :: 'n' :: l) =
    (parseStrBody l).map (fun p => (Char.ofNat 10 :: p.1, p.2)) := by
  rw [parseStrBody.eq_def]
  simp

theorem psb_esc_f (l : List Char) : parseStrBody ('\\' :: 'f' :: l) =
    (parseStrBody l).map (fun p => (Char.ofNat 12 :: p.1, p.2)) := by
  rw [parseStrBody.eq_def]
  simp

theorem psb_esc_r (l : List Char) : parseStrBody ('\\' :: 'r' :: l) =
    (parseStrBody l).map (fun p => (Char.ofNat 13 :: p.1, p.2)) := by
  rw [parseStrBody.eq_def]
  simp

theorem psb_esc_u (h1 h2 h3 h4 : Char) (a b c2 d : Nat) (l : List Char)
    (e1 : hexVal h1 = some a) (e2 : hexVal h2 = some b)
    (e3 : hexVal h3 = some c2) (e4 : hexVal h4 = some d)
    (hv : ((a * 16 + b) * 16 + c2) * 16 + d < 55296) :
    parseStrBody ('\\' :: 'u' :: h1 :: h2 :: h3 :: h4 :: l) =
      (parseStrBody l).map
        (fun p => (Char.ofNat (((a * 16 + b) * 16 + c2) * 16 + d) :: p.1, p.2)) := by
  rw [parseStrBody.eq_def]
  simp [e1, e2, e3, e4, hv]

theorem parseStrBody_escString : ∀ (s : List Char) (rest : List Char),
    parseStrBody (escString s ++ '"' :: rest) = some (s, rest) := by
  intro s
  induction s with
  | nil =>
    intro rest
    simp only [escString, List.flatMap_nil, List.nil_append]
    exact psb_quote rest
  | cons c s ih =>
    intro rest
    have hs : escString (c :: s) = escChar c ++ escString s := by
      simp [escString]
    rw [hs, List.append_assoc, escChar]
    split_ifs with h1 h2 h3 h4 h5 h6 h7 h8
    · subst h1
      simp [psb_esc_quote, ih]
    · subst h2
      simp [psb_esc_back, ih]
    · simp only [List.cons_append, List.nil_append, psb_esc_b, ih]
      rw [← h3, Char.ofNat_toNat]
      rfl
    · simp only [List.cons_append, List.nil_append, psb_esc_t, ih]
      rw [← h4, Char.ofNat_toNat]
      rfl
    · simp only [List.cons_append, List.nil_append, psb_esc_n, ih]
      rw [← h5, Char.ofNat_toNat]
      rfl
    · simp only [List.cons_append, List.nil_append, psb_esc_f, ih]
      rw [← h6, Char.ofNat_toNat]
      rfl
    · simp only [List.cons_append, List.nil_append, psb_esc_r, ih]
      rw [← h7, Char.ofNat_toNat]
      rfl
    · have hq : hexVal (hexChar (c.toNat / 16)) = some (c.toNat / 16) :=
        hexVal_hexChar _ (by omega)
      have hr : hexVal (hexChar (c.toNat % 16)) = some (c.toNat % 16) :=
        hexVal_hexChar _ (by omega)
      have h0 : hexVal '0' = some 0 := by decide
      have hv : ((0 * 16 + 0) * 16 + c.toNat / 16) * 16 + c.toNat % 16 = c.toNat := by
        omega
      simp only [List.cons_append, List.nil_append]
      rw [psb_esc_u '0' '0' (hexChar (c.toNat / 16)) (hexChar (c.toNat % 16))
        0 0 (c.toNat / 16) (c.toNat % 16) _ h0 h0 hq hr (by omega), hv,
        Char.ofNat_toNat, ih]
      rfl
    · simp only [List.cons_append, List.nil_append,
        psb_other c _ h1 h2, ih]
      rfl

/-! ### Round-trip of task objects and of the array -/

theorem dropLit_append : ∀ (lit rest : List Char), dropLit lit (lit ++ rest) = some rest := by
  intro lit
  induction lit with
  | nil => intro rest; simp [dropLit]
  | cons c cs ih => intro rest; simp [dropLit, ih]

theorem parseBool_boolChars (b : Bool) (rest : List Char) :
    parseBool (boolChars b ++ rest) = some (b, rest) := by
  cases b <;> simp [boolChars, parseBool, dropLit]

theorem parseTask_encodeTask (t : Task) (rest : List Char) :
    parseTask (encodeTask t ++ rest) = some (t, rest) := by
  have hshape : encodeTask t ++ rest =
      "\x7b\"id\":".data ++ (intChars t.id ++ (',' :: ("\"text\":\"".data ++
        (escString t.text.data ++ '"' :: (",\"completed\":".data ++
          (boolChars t.completed ++ '\x7d' :: rest)))))) := by
    simp [encodeTask]
  rw [hshape, parseTask, dropLit_append]
  simp only [Option.some_bind]
  rw [parseIntNum_intChars t.id ',' _ (by decide)]
  simp only [Option.some_bind]
  have hlit : (',' :: ("\"text\":\"".data ++ (escString t.text.data ++ '"' ::
      (",\"completed\":".data ++ (boolChars t.completed ++ '\x7d' :: rest))))) =
      ",\"text\":\"".data ++ (escString t.text.data ++ '"' ::
      (",\"completed\":".data ++ (boolChars t.completed ++ '\x7d' :: rest))) := rfl
  rw [hlit, dropLit_append]
  simp only [Option.some_bind]
  rw [parseStrBody_escString]
  simp only [Option.some_bind]
  rw [dropLit_append]
  simp only [Option.some_bind]
  rw [parseBool_boolChars]
  simp only [Option.some_bind]

theorem encodeTask_length (t : Task) : 1 ≤ (encodeTask t).length := by
  simp [encodeTask]

theorem innerEnc_length : ∀ ts : List Task, ts.length ≤ (innerEnc ts).length := by
  intro ts
  induction ts with
  | nil => simp [innerEnc]
  | cons t ts ih =>
    cases ts with
    | nil =>
      simpa [innerEnc] using encodeTask_length t
    | cons t2 ts2 =>
      have h1 := encodeTask_length t
      simp only [innerEnc, List.length_append, List.length_cons] at *
      omega

theorem parseTasksAux_innerEnc : ∀ (ts : List Task) (fuel : Nat) (rest : List Char),
    ts ≠ [] → ts.length ≤ fuel →
    parseTasksAux fuel (innerEnc ts ++ ']' :: rest) = some (ts, rest) := by
  intro ts
  induction ts with
  | nil => intro fuel rest h; exact absurd rfl h
  | cons t ts ih =>
    intro fuel rest _ hlen
    cases fuel with
    | zero => simp at hlen
    | succ f =>
      cases ts with
      | nil =>
        simp only [innerEnc]
        rw [parseTasksAux, parseTask_encodeTask]
        simp
      | cons t2 ts2 =>
        have hshape : innerEnc (t :: t2 :: ts2) ++ ']' :: rest =
            encodeTask t ++ ',' :: (innerEnc (t2 :: ts2) ++ ']' :: rest) := by
          simp [innerEnc]
        rw [hshape, parseTasksAux, parseTask_encodeTask]
        have hrec := ih f rest (by simp) (by simp at hlen ⊢; omega)
        simp only [hrec]

theorem parse_encodeTasks (ts : List Task) :
    parseTasksTop (encodeTasks ts) = some ts := by
  cases ts with
  | nil =>
    rfl
  | cons t ts2 =>
    obtain ⟨l, hl⟩ : ∃ l, innerEnc (t :: ts2) = '\x7b' :: l := by
      cases ts2
      · exact ⟨_, rfl⟩
      · exact ⟨_, rfl⟩
    have henc : encodeTasks (t :: ts2) = '[' :: ('\x7b' :: (l ++ [']'])) := by
      rw [encodeTasks, hl]
      rfl
    have hback : ('\x7b' :: (l ++ [']'])) = innerEnc (t :: ts2) ++ ']' :: [] := by
      rw [hl]
      rfl
    have hstep : parseTasksTop ('[' :: ('\x7b' :: (l ++ [']']))) =
        (match parseTasksAux (('\x7b' :: (l ++ [']'])).length + 1)
            ('\x7b' :: (l ++ [']'])) with
         | some (ts, rest2) => if rest2 = [] then some ts else none
         | none => none) := rfl
    rw [henc, hstep, hback]
    rw [parseTasksAux_innerEnc (t :: ts2) _ [] (by simp) ?_]
    · simp
    · have h1 := innerEnc_length (t :: ts2)
      simp only [List.length_cons] at h1
      simp only [List.length_append, List.length_cons, List.length_nil]
      omega

/-! ### The full round-trip and hydration -/

theorem parse_stringify (ts : List Task) :
    parseTasksStr (stringifyTasks ts) = some ts :=
  parse_encodeTasks ts

theorem encodeTasks_ne_nil (ts : List Task) : encodeTasks ts ≠ [] := by
  simp [encodeTasks]

theorem loadTasks_stringify (S : List Task) (st : AppState)
    (hslot : st.slot = some (stringifyTasks S)) :
    loadTasks st = some ({ st with tasks := S, nextId := if S.length > 0 then maxIdInt (S.map Task.id) + 1 else st.nextId }) := by
  rw [loadTasks, hslot]
  simp only []
  rw [if_neg (by exact encodeTasks_ne_nil S), parse_stringify]

/-! ### Helper lemmas about the store operations -/

theorem le_foldl_max (xs : List Int) : ∀ a : Int,
    a ≤ xs.foldl max a ∧ ∀ x ∈ xs, x ≤ xs.foldl max a := by
  induction xs with
  | nil => intro a; simp
  | cons y ys ih =>
    intro a
    simp only [List.foldl_cons]
    refine ⟨le_trans (le_max_left a y) (ih (max a y)).1, ?_⟩
    intro x hx
    rcases List.mem_cons.1 hx with h | h
    · subst h
      exact le_trans (le_max_right a x) (ih (max a x)).1
    · exact (ih (max a y)).2 x h

theorem maxIdInt_ge (l : List Int) (x : Int) (h : x ∈ l) : x ≤ maxIdInt l := by
  cases l with
  | nil => cases h
  | cons y ys =>
    rcases List.mem_cons.1 h with h1 | h1
    · subst h1
      exact (le_foldl_max ys x).1
    · exact (le_foldl_max ys y).2 x h1

theorem toggleFirst_map_id (ts : List Task) (id : Int) :
    (toggleFirst ts id).map Task.id = ts.map Task.id := by
  induction ts with
  | nil => rfl
  | cons t ts ih =>
    rw [toggleFirst]
    split
    · simp
    · simp [ih]

theorem toggleFirst_involution (ts : List Task) (id : Int) :
    toggleFirst (toggleFirst ts id) id = ts := by
  induction ts with
  | nil => rfl
  | cons t ts ih =>
    rw [toggleFirst]
    split
    · rw [toggleFirst, if_pos (by assumption)]
      simp
    · rw [toggleFirst, if_neg (by assumption), ih]

theorem toggleFirst_spec (ts : List Task) (id : Int)
    (h : ∃ t ∈ ts, t.id = id) :
    ∃ i, ∃ hi : i < ts.length,
      (ts.get ⟨i, hi⟩).id = id ∧
      toggleFirst ts id = ts.set i
        { ts.get ⟨i, hi⟩ with completed := !(ts.get ⟨i, hi⟩).completed } := by
  induction ts with
  | nil => obtain ⟨t, ht, _⟩ := h; cases ht
  | cons t ts ih =>
    by_cases hid : t.id = id
    · refine ⟨0, by simp, by simpa using hid, ?_⟩
      rw [toggleFirst, if_pos hid]
      simp
    · have h2 : ∃ x ∈ ts, x.id = id := by
        obtain ⟨x, hx, hxid⟩ := h
        rcases List.mem_cons.1 hx with h3 | h3
        · subst h3; exact absurd hxid hid
        · exact ⟨x, h3, hxid⟩
      obtain ⟨i, hi, hid2, heq⟩ := ih h2
      refine ⟨i + 1, by simpa using hi, by simpa using hid2, ?_⟩
      rw [toggleFirst, if_neg hid, heq]
      simp

/-! ### Reachable states and the id invariant -/

theorem storeInv_boot (S : List Task) (input : String) (st' : AppState)
    (hv : ValidSeq S)
    (hl : loadTasks { tasks := [], nextId := 1, slot := some (stringifyTasks S), input := input } = some st') :
    StoreInv st' := by
  rw [loadTasks_stringify S _ rfl] at hl
  have hst := Option.some.inj hl
  subst hst
  refine ⟨hv.1, ?_, ?_⟩
  · intro t ht
    refine ⟨hv.2 t ht, ?_⟩
    simp only []
    rw [if_pos (by cases S with | nil => cases ht | cons a l => simp)]
    have : t.id ≤ maxIdInt (S.map Task.id) :=
      maxIdInt_ge _ _ (List.mem_map_of_mem Task.id ht)
    omega
  · simp only []
    split
    · rename_i hlen
      cases S with
      | nil => simp at hlen
      | cons a l =>
        have ha : 1 ≤ a.id := hv.2 a (List.mem_cons_self a l)
        have : a.id ≤ maxIdInt ((a :: l).map Task.id) :=
          maxIdInt_ge _ _ (by simp)
        omega
    · omega

theorem storeInv_addTask (st : AppState) (h : StoreInv st) :
    StoreInv (addTask st).1 := by
  rw [addTask]
  split
  · exact h
  · obtain ⟨hnd, hmem, hpos⟩ := h
    refine ⟨?_, ?_, ?_⟩
    · simp only [saveTasks, List.map_append, List.map_cons, List.map_nil]
      rw [List.nodup_append]
      refine ⟨hnd, List.nodup_singleton _, ?_⟩
      intro x hx
      simp only [List.mem_singleton]
      intro hx2
      subst hx2
      obtain ⟨t, ht, hid⟩ := List.mem_map.1 hx
      exact absurd hid (by have := (hmem t ht).2; omega)
    · intro t ht
      simp only [saveTasks] at ht
      rcases List.mem_append.1 ht with h1 | h1
      · have := hmem t h1
        simp only [saveTasks]
        constructor
        · exact this.1
        · omega
      · simp only [List.mem_singleton] at h1
        subst h1
        simp only [saveTasks]
        constructor
        · exact hpos
        · omega
    · simp only [saveTasks]
      omega

theorem storeInv_toggleTask (id : Int) (st : AppState) (h : StoreInv st) :
    StoreInv (toggleTask id st).1 := by
  rw [toggleTask]
  cases hf : st.tasks.find? (fun t => t.id == id) with
  | none => exact h
  | some t0 =>
    obtain ⟨hnd, hmem, hpos⟩ := h
    refine ⟨?_, ?_, hpos⟩
    · simp only [saveTasks, toggleFirst_map_id]
      exact hnd
    · intro t ht
      simp only [saveTasks] at ht ⊢
      have hid : t.id ∈ (toggleFirst st.tasks id).map Task.id :=
        List.mem_map_of_mem Task.id ht
      rw [toggleFirst_map_id] at hid
      obtain ⟨u, hu, huid⟩ := List.mem_map.1 hid
      have := hmem u hu
      omega

theorem storeInv_deleteTask (id : Int) (st : AppState) (h : StoreInv st) :
    StoreInv (deleteTask id st).1 := by
  obtain ⟨hnd, hmem, hpos⟩ := h
  refine ⟨?_, ?_, hpos⟩
  · simp only [deleteTask, saveTasks]
    exact List.Nodup.sublist (List.Sublist.map Task.id (List.filter_sublist _)) hnd
  · intro t ht
    simp only [deleteTask, saveTasks, List.mem_filter] at ht
    exact hmem t ht.1

theorem reachable_storeInv (st : AppState) (h : Reachable st) : StoreInv st := by
  induction h with
  | boot S input st' hv hl => exact storeInv_boot S input st' hv hl
  | typed st text _ ih => exact ⟨ih.1, ih.2.1, ih.2.2⟩
  | added st _ ih => exact storeInv_addTask st ih
  | toggled st id _ ih => exact storeInv_toggleTask id st ih
  | deleted st id _ ih => exact storeInv_deleteTask id st ih

theorem toggleTask_found (id : Int) (st : AppState) (t0 : Task)
    (hf : st.tasks.find? (fun t => t.id == id) = some t0) :
    toggleTask id st =
      ({ st with tasks := toggleFirst st.tasks id,
                 slot := some (stringifyTasks (toggleFirst st.tasks id)) },
       [Effect.saveE (stringifyTasks (toggleFirst st.tasks id)),
        Effect.renderE (toggleFirst st.tasks id)]) := by
  rw [toggleTask, hf]
  rfl

theorem toggleTask_not_found (id : Int) (st : AppState)
    (hf : st.tasks.find? (fun t => t.id == id) = none) :
    toggleTask id st = (st, []) := by
  rw [toggleTask, hf]

theorem find?_id_present (ts : List Task) (id : Int)
    (h : ∃ t ∈ ts, t.id = id) :
    ∃ t0, ts.find? (fun t => t.id == id) = some t0 := by
  have hs : (ts.find? (fun t => t.id == id)).isSome := by
    rw [List.find?_isSome]
    obtain ⟨t, ht, hid⟩ := h
    exact ⟨t, ht, by simp [hid]⟩
  exact Option.isSome_iff_exists.1 hs

/-! ### Claim theorems -/

/-- C1: for every mutation operation (addTask, toggleTask, deleteTask),
immediately after the operation completes the value stored in the
persistence slot under key "tasks" equals the serialization of the
in-memory tasks sequence, from any state in which it did before (the
paths that write do so unconditionally; the only non-writing paths leave
both sides untouched). -/
theorem C1_persisted_matches_memory (st : AppState) (id : Int)
    (h : st.slot = some (stringifyTasks st.tasks)) :
    (addTask st).1.slot = some (stringifyTasks (addTask st).1.tasks) ∧
    (toggleTask id st).1.slot = some (stringifyTasks (toggleTask id st).1.tasks) ∧
    (deleteTask id st).1.slot = some (stringifyTasks (deleteTask id st).1.tasks) := by
  refine ⟨?_, ?_, rfl⟩
  · rw [addTask]
    split
    · exact h
    · rfl
  · cases hf : st.tasks.find? (fun t => t.id == id) with
    | none =>
      rw [toggleTask_not_found id st hf]
      exact h
    | some t0 =>
      rw [toggleTask_found id st t0 hf]

/-- Witness for C1 at a concrete synced state. -/
theorem C1_witness :
    (addTask ⟨[], 1, some (stringifyTasks []), ""⟩).1.slot = some (stringifyTasks (addTask ⟨[], 1, some (stringifyTasks []), ""⟩).1.tasks) ∧
    (toggleTask 1 ⟨[], 1, some (stringifyTasks []), ""⟩).1.slot = some (stringifyTasks (toggleTask 1 ⟨[], 1, some (stringifyTasks []), ""⟩).1.tasks) ∧
    (deleteTask 1 ⟨[], 1, some (stringifyTasks []), ""⟩).1.slot = some (stringifyTasks (deleteTask 1 ⟨[], 1, some (stringifyTasks []), ""⟩).1.tasks) :=
  C1_persisted_matches_memory ⟨[], 1, some (stringifyTasks []), ""⟩ 1 rfl

/-- C2: with input that is non-empty after trimming, addTask appends exactly
one item {id := nextId, text := trimmed text, completed := false} at the end
and increments nextId by one; from the empty store, adding "Buy milk" yields
exactly that singleton and the slot holds its serialization. -/
theorem C2_addTask_appends (st : AppState) (h : jsTrim st.input ≠ "") :
    (addTask st).1.tasks = st.tasks ++ [{ id := st.nextId, text := jsTrim st.input, completed := false }] ∧
    (addTask st).1.nextId = st.nextId + 1 ∧
    (addTask ⟨[], 1, none, "Buy milk"⟩).1.tasks = [⟨1, "Buy milk", false⟩] ∧
    (addTask ⟨[], 1, none, "Buy milk"⟩).1.slot = some (stringifyTasks [⟨1, "Buy milk", false⟩]) := by
  refine ⟨?_, ?_, rfl, rfl⟩
  · simp [addTask, saveTasks, h]
  · simp [addTask, saveTasks, h]

/-- Witness for C2 with a non-empty input that needs trimming. -/
theorem C2_witness :
    jsTrim "  milk  " ≠ "" ∧
    (addTask ⟨[], 5, none, "  milk  "⟩).1.tasks = [⟨5, "milk", false⟩] := by
  refine ⟨by decide, ?_⟩
  have h := C2_addTask_appends ⟨[], 5, none, "  milk  "⟩ (by decide)
  rw [h.1]
  rfl

/-- C3: with input that is empty after trimming, addTask raises exactly the
fixed blocking alert and changes nothing: tasks, nextId, slot and input are
all left as they were. -/
theorem C3_addTask_empty_rejected (st : AppState) (h : jsTrim st.input = "") :
    addTask st = (st, [Effect.alertE "Por favor, digite uma tarefa!"]) := by
  simp [addTask, h]

/-- Witness for C3 on whitespace-only input over a non-empty store. -/
theorem C3_witness :
    jsTrim "   " = "" ∧
    addTask ⟨[⟨1, "x", false⟩], 2, some (stringifyTasks [⟨1, "x", false⟩]), "   "⟩ =
      (⟨[⟨1, "x", false⟩], 2, some (stringifyTasks [⟨1, "x", false⟩]), "   "⟩,
       [Effect.alertE "Por favor, digite uma tarefa!"]) :=
  ⟨by decide, C3_addTask_empty_rejected _ (by decide)⟩

/-- C4: in every state reachable by hydration from a valid persisted
sequence followed by any run of typing, add, toggle and delete operations,
the ids in the sequence are pairwise distinct, every id is a positive
integer strictly below nextId, and nextId is at least 1 (so each add
assigns the fresh id nextId, which exceeds the maximal existing id). -/
theorem C4_id_uniqueness_invariant (st : AppState) (h : Reachable st) :
    (st.tasks.map Task.id).Nodup ∧
    (∀ t ∈ st.tasks, 1 ≤ t.id ∧ t.id < st.nextId) ∧ 1 ≤ st.nextId :=
  reachable_storeInv st h

/-- Witness for C4 at the state hydrated from the serialized empty sequence. -/
theorem C4_witness :
    (((⟨[], 1, some (stringifyTasks []), ""⟩ : AppState)).tasks.map Task.id).Nodup ∧
    (∀ t ∈ (⟨[], 1, some (stringifyTasks []), ""⟩ : AppState).tasks, 1 ≤ t.id ∧ t.id < (⟨[], 1, some (stringifyTasks []), ""⟩ : AppState).nextId) ∧
    1 ≤ (⟨[], 1, some (stringifyTasks []), ""⟩ : AppState).nextId :=
  C4_id_uniqueness_invariant _
    (Reachable.boot [] "" _ (show ValidSeq [] from ⟨by simp, by simp⟩) rfl)

/-- C5: toggling an id present in the sequence twice in succession returns
the store to its original tasks sequence (and nextId is untouched); in
particular the completed flag of that item returns to its original value. -/
theorem C5_toggle_involution (st : AppState) (id : Int)
    (h : ∃ t ∈ st.tasks, t.id = id) :
    (toggleTask id (toggleTask id st).1).1.tasks = st.tasks ∧
    (toggleTask id (toggleTask id st).1).1.nextId = st.nextId := by
  obtain ⟨t0, hf⟩ := find?_id_present st.tasks id h
  rw [toggleTask_found id st t0 hf]
  have h2 : ∃ t ∈ toggleFirst st.tasks id, t.id = id := by
    obtain ⟨t, ht, hid⟩ := h
    have hm : id ∈ (toggleFirst st.tasks id).map Task.id := by
      rw [toggleFirst_map_id]
      exact List.mem_map.2 ⟨t, ht, hid⟩
    obtain ⟨u, hu, huid⟩ := List.mem_map.1 hm
    exact ⟨u, hu, huid⟩
  obtain ⟨t1, hf1⟩ := find?_id_present (toggleFirst st.tasks id) id h2
  rw [toggleTask_found id _ t1 hf1]
  exact ⟨toggleFirst_involution st.tasks id, rfl⟩

/-- Witness for C5 on a singleton store. -/
theorem C5_witness :
    (∃ t ∈ ([⟨1, "a", false⟩] : List Task), Task.id t = 1) ∧
    (toggleTask 1 (toggleTask 1 ⟨[⟨1, "a", false⟩], 2, none, ""⟩).1).1.tasks = [⟨1, "a", false⟩] :=
  ⟨by decide, (C5_toggle_involution ⟨[⟨1, "a", false⟩], 2, none, ""⟩ 1 (by decide)).1⟩

/-- C6: deleteTask is idempotent on the tasks sequence, never changes
nextId, and removing id 2 from a store with ids 1, 2, 3 leaves ids 1 and 3
in their original relative order. -/
theorem C6_delete_idempotent (st : AppState) (id : Int) :
    (deleteTask id (deleteTask id st).1).1.tasks = (deleteTask id st).1.tasks ∧
    (deleteTask id st).1.nextId = st.nextId ∧
    (deleteTask 2 ⟨[⟨1, "a", false⟩, ⟨2, "b", false⟩, ⟨3, "c", false⟩], 4, none, ""⟩).1.tasks = [⟨1, "a", false⟩, ⟨3, "c", false⟩] := by
  refine ⟨?_, rfl, by decide⟩
  show (st.tasks.filter (fun t => t.id != id)).filter (fun t => t.id != id) =
    st.tasks.filter (fun t => t.id != id)
  simp [List.filter_filter]

/-- C7: the round-trip law: deserializing the text produced by serializing
any sequence of task records recovers that sequence exactly. -/
theorem C7_save_load_roundtrip (S : List Task) :
    parseTasksStr (stringifyTasks S) = some S :=
  parse_stringify S

/-- Counterexample to C8 as stated: invoking addTask with empty input
performs no persistence write and no re-render at all — its only effect is
the alert, and the state is unchanged — so not every invocation of a
mutation operation runs the three-step pipeline. -/
theorem C8_counterexample :
    (addTask ⟨[], 1, none, ""⟩).2 = [Effect.alertE "Por favor, digite uma tarefa!"] ∧
    (addTask ⟨[], 1, none, ""⟩).1 = ⟨[], 1, none, ""⟩ ∧
    ((addTask ⟨[], 1, none, ""⟩).2.any isSaveE) = false ∧
    ((addTask ⟨[], 1, none, ""⟩).2.any isRenderE) = false :=
  ⟨rfl, rfl, rfl, rfl⟩

/-- C8 (amended): every invocation that mutates the store — addTask with
non-empty trimmed input, toggleTask with an id that is found, and every
deleteTask — performs the full pipeline: the mutation, then exactly one
persistence write of the serialized new sequence, then exactly one
re-render of the new sequence, in that order; addTask with empty-after-trim
input only alerts, and toggleTask with an absent id does nothing. -/
theorem C8_amended_pipeline (st : AppState) (id : Int) :
    (addTask st).2 = (if jsTrim st.input = "" then [Effect.alertE "Por favor, digite uma tarefa!"] else [Effect.saveE (stringifyTasks (addTask st).1.tasks), Effect.renderE (addTask st).1.tasks]) ∧
    (toggleTask id st).2 = (if (st.tasks.find? (fun t => t.id == id)).isSome then [Effect.saveE (stringifyTasks (toggleTask id st).1.tasks), Effect.renderE (toggleTask id st).1.tasks] else []) ∧
    (deleteTask id st).2 = [Effect.saveE (stringifyTasks (deleteTask id st).1.tasks), Effect.renderE (deleteTask id st).1.tasks] := by
  refine ⟨?_, ?_, rfl⟩
  · by_cases h : jsTrim st.input = ""
    · simp [addTask, h]
    · simp [addTask, saveTasks, renderTasks, h]
  · cases hf : st.tasks.find? (fun t => t.id == id) with
    | none =>
      rw [toggleTask_not_found id st hf]
      rfl
    | some t0 =>
      rw [toggleTask_found id st t0 hf]
      rfl

/-- C9: the frame property of toggleTask on a present id: the result is the
original sequence with exactly one position overwritten by the same record
with its completed flag negated (so that item's id and text, every other
item, the order, the length and nextId are all unchanged). -/
theorem C9_toggle_frame (st : AppState) (id : Int)
    (h : ∃ t ∈ st.tasks, t.id = id) :
    (toggleTask id st).1.nextId = st.nextId ∧
    (toggleTask id st).1.tasks.length = st.tasks.length ∧
    ∃ i, ∃ hi : i < st.tasks.length,
      (st.tasks.get ⟨i, hi⟩).id = id ∧
      (toggleTask id st).1.tasks = st.tasks.set i
        { st.tasks.get ⟨i, hi⟩ with completed := !(st.tasks.get ⟨i, hi⟩).completed } := by
  obtain ⟨t0, hf⟩ := find?_id_present st.tasks id h
  rw [toggleTask_found id st t0 hf]
  obtain ⟨i, hi, hid, heq⟩ := toggleFirst_spec st.tasks id h
  refine ⟨rfl, ?_, ⟨i, hi, hid, heq⟩⟩
  show (toggleFirst st.tasks id).length = st.tasks.length
  rw [heq]
  simp

/-- Witness for C9 on a two-element store, toggling the second id. -/
theorem C9_witness :
    (toggleTask 2 ⟨[⟨1, "a", false⟩, ⟨2, "b", true⟩], 3, none, ""⟩).1.nextId = 3 ∧
    (toggleTask 2 ⟨[⟨1, "a", false⟩, ⟨2, "b", true⟩], 3, none, ""⟩).1.tasks.length = 2 ∧
    ∃ i, ∃ hi : i < ([⟨1, "a", false⟩, ⟨2, "b", true⟩] : List Task).length,
      (([⟨1, "a", false⟩, ⟨2, "b", true⟩] : List Task).get ⟨i, hi⟩).id = 2 ∧
      (toggleTask 2 ⟨[⟨1, "a", false⟩, ⟨2, "b", true⟩], 3, none, ""⟩).1.tasks = ([⟨1, "a", false⟩, ⟨2, "b", true⟩] : List Task).set i { ([⟨1, "a", false⟩, ⟨2, "b", true⟩] : List Task).get ⟨i, hi⟩ with completed := !(([⟨1, "a", false⟩, ⟨2, "b", true⟩] : List Task).get ⟨i, hi⟩).completed } :=
  C9_toggle_frame ⟨[⟨1, "a", false⟩, ⟨2, "b", true⟩], 3, none, ""⟩ 2 (by decide)

/-- C10: deleteTask removes every item bearing the given id — also when
several items share that id, which hydration does not rule out — and keeps
all non-matching items in their original relative order. -/
theorem C10_delete_removes_all_matching (st : AppState) (id : Int) :
    (∀ t ∈ (deleteTask id st).1.tasks, t.id ≠ id) ∧
    List.Sublist (deleteTask id st).1.tasks st.tasks ∧
    (∀ t ∈ st.tasks, t.id ≠ id → t ∈ (deleteTask id st).1.tasks) ∧
    (deleteTask 2 ⟨[⟨2, "a", false⟩, ⟨1, "b", false⟩, ⟨2, "c", true⟩], 3, none, ""⟩).1.tasks = [⟨1, "b", false⟩] := by
  have hts : (deleteTask id st).1.tasks = st.tasks.filter (fun t => t.id != id) := rfl
  refine ⟨?_, ?_, ?_, by decide⟩
  · intro t ht
    rw [hts, List.mem_filter] at ht
    simpa using ht.2
  · rw [hts]
    exact List.filter_sublist _
  · intro t ht hne
    rw [hts, List.mem_filter]
    exact ⟨ht, by simpa using hne⟩

/-- Witness for C10: the store with duplicate id 2 loses both copies. -/
theorem C10_witness :
    ((⟨1, "b", false⟩ : Task).id ≠ 2) ∧
    (⟨1, "b", false⟩ : Task) ∈ (deleteTask 2 ⟨[⟨2, "a", false⟩, ⟨1, "b", false⟩, ⟨2, "c", true⟩], 3, none, ""⟩).1.tasks := by
  have h := C10_delete_removes_all_matching ⟨[⟨2, "a", false⟩, ⟨1, "b", false⟩, ⟨2, "c", true⟩], 3, none, ""⟩ 2
  refine ⟨h.1 ⟨1, "b", false⟩ (by decide), h.2.2.1 ⟨1, "b", false⟩ (by decide) (by decide)⟩

end Todo
